import Mathlib

/-
Verification development for the epidemiology glossary bot.

The source program is a small JavaScript chat bot.  Its core pipeline is:
a message router (command filtering), a two-phase matcher over an immutable
knowledge base of term/definition pairs, and a reply dispatcher that splits
oversized payloads into fixed-width chunks.

Modelling conventions:
- JS strings are modelled as `List Char` (`Str`); all string operations used
  by the bot (trim, toLowerCase, includes, the regex classes \w and \s) act
  on ASCII, and `Char.toLower` agrees with JS `toLowerCase` on ASCII.
- The knowledge base object is modelled as an association list in object-key
  iteration order (JS objects iterate string keys in insertion order).
- `Array.prototype.sort` with comparator `(a, b) => b.score - a.score` is,
  per the ECMAScript specification, a stable sort consistent with the
  comparator; its output is therefore uniquely determined, and is modelled
  by `List.insertionSort` with the relation `scoreGe` (score descending,
  which keeps ties in production order).
- The async reply loop awaits each send; a rejected send promise aborts the
  enclosing handler.  This is modelled by `attemptRun`, which is driven by an
  oracle `fail : Nat -> Bool` saying whether the k-th send attempt fails.
-/

namespace EpiBot

/-- JS strings, modelled as lists of characters (ASCII fragment). -/
abbrev Str := List Char

/-- The knowledge base: term/definition pairs in object-key iteration order. -/
abbrev KB := List (Str × Str)

/-! ### JS string primitives used by the bot -/

/-- Whitespace as matched by JS `\s` and removed by `trim` (ASCII fragment). -/
def isJsSpace (c : Char) : Bool :=
  c == ' ' || c == '\t' || c == '\n' || c == '\r' || c == '\x0b' || c == '\x0c'

/-- JS `String.prototype.trim`: drop leading and trailing whitespace. -/
def jsTrim (s : Str) : Str :=
  ((s.dropWhile isJsSpace).reverse.dropWhile isJsSpace).reverse

/-- JS `String.prototype.toLowerCase` (ASCII fragment). -/
def jsToLower (s : Str) : Str := s.map Char.toLower

/-- JS `hay.includes(needle)`: substring containment (empty needle matches). -/
def jsIncludes (hay needle : Str) : Bool := decide (needle <:+: hay)

/-- JS regex class `\w`: ASCII letters, digits and underscore. -/
def isWordChar (c : Char) : Bool := c.isAlphanum || c == '_'

/-- Helper for `splitWords`; `acc` holds the current run of non-space characters,
reversed. -/
def splitWordsAux : Str → Str → List Str
  | [], acc => if acc.isEmpty then [] else [acc.reverse]
  | c :: cs, acc =>
      if isJsSpace c then
        if acc.isEmpty then splitWordsAux cs [] else acc.reverse :: splitWordsAux cs []
      else splitWordsAux cs (c :: acc)

/-- JS `s.split(/\s+/).filter(Boolean)`: the maximal runs of non-whitespace
characters in `s` (splitting on whitespace runs and discarding empty pieces). -/
def splitWords (s : Str) : List Str := splitWordsAux s []

/-- JS object lookup `KNOWLEDGE_BASE[k]`; object keys are unique, so a first-match
lookup over the association list is faithful.  Returns `[]` for a missing key
(the JS program only looks up keys obtained from the object itself). -/
def kbGet (kb : KB) (k : Str) : Str :=
  ((kb.find? (fun e => e.1 == k)).map Prod.snd).getD []

/-! ### The matcher (from the message handler in src/index.js) -/

/-- The sentinel reply sent when tokenization produces no search words:
"Please provide some keywords to search for." -/
def provideKeywordsMsg : Str := "Please provide some keywords to search for.".data

/-- The sentinel reply sent when the definition search finds nothing.  The text
is assembled around the two apostrophes of the source string literal. -/
def noInfoMsg : Str :=
  "I".data ++ ['\x27'] ++ "m sorry, I don".data ++ ['\x27'] ++
    "t have information on that topic. Please try asking about one of the keywords mentioned in /help.".data

/-- Phase 1 term matching:
`Object.keys(KNOWLEDGE_BASE).filter(keyword => keyword.toLowerCase().includes(userMessage))`. -/
def termMatchesOf (kb : KB) (um : Str) : List Str :=
  (kb.map Prod.fst).filter (fun k => jsIncludes (jsToLower k) um)

/-- Phase 2 score of one definition:
`searchWords.filter(word => definition.toLowerCase().includes(word)).length`. -/
def defScore (ws : List Str) (d : Str) : Nat :=
  (ws.filter (fun w => jsIncludes (jsToLower d) w)).length

/-- Phase 2 candidate collection: the `for (const keyword in KNOWLEDGE_BASE)`
loop pushing `{ keyword, score }` whenever `score > 0`. -/
def definitionMatches (kb : KB) (ws : List Str) : List (Str × Nat) :=
  kb.filterMap (fun e => if 0 < defScore ws e.2 then some (e.1, defScore ws e.2) else none)

/-- The order imposed by the JS comparator `(a, b) => b.score - a.score`:
`a` may precede `b` when the score of `a` is at least that of `b`. -/
def scoreGe (a b : Str × Nat) : Prop := b.2 ≤ a.2

instance : DecidableRel scoreGe := fun a b => inferInstanceAs (Decidable (b.2 ≤ a.2))

instance : IsTotal (Str × Nat) scoreGe := ⟨fun a b => Nat.le_total b.2 a.2⟩

instance : IsTrans (Str × Nat) scoreGe := ⟨fun _ _ _ h1 h2 => Nat.le_trans h2 h1⟩

/-- Phase 2 reply construction: sort candidates by score descending (stable),
take the first 5, reply with their definitions; if there are no candidates,
reply with the no-information sentinel. -/
def phase2Replies (kb : KB) (ws : List Str) : List Str :=
  let dm := definitionMatches kb ws
  if dm.isEmpty then [noInfoMsg]
  else ((List.insertionSort scoreGe dm).take 5).map (fun m => kbGet kb m.1)

/-- The matcher body, applied to the normalized (trimmed, lowercased) message. -/
def matcherReplies (kb : KB) (um : Str) : List Str :=
  let termMatches := termMatchesOf kb um
  if !termMatches.isEmpty then (termMatches.take 5).map (kbGet kb)
  else
    let searchWords := splitWords (um.filter (fun c => isWordChar c || isJsSpace c))
    if searchWords.isEmpty then [provideKeywordsMsg]
    else phase2Replies kb searchWords

/-- Message normalization: `msg.text.trim().toLowerCase()`. -/
def normalizeMsg (t : Str) : Str := jsToLower (jsTrim t)

/-- The command guard `msg.text && msg.text.startsWith('/')` for a string text. -/
def isCmd (t : Str) : Bool := !t.isEmpty && (t.take 1 == ['/'])

/-- The message handler on a text message: commands are ignored, everything else
goes to the matcher.  Returns the list of reply payloads in send order. -/
def handleMessage (kb : KB) (t : Str) : List Str :=
  if isCmd t then [] else matcherReplies kb (normalizeMsg t)

/-- The message handler on a raw event whose `text` field may be absent
(`none` models a non-text message such as a photo).  The command guard is
falsy for an absent text, after which `msg.text.trim()` throws a TypeError,
modelled as `Except.error ()`. -/
def handleEvent (kb : KB) (o : Option Str) : Except Unit (List Str) :=
  if (o.map isCmd).getD false then Except.ok []
  else
    match o with
    | none => Except.error ()
    | some t => Except.ok (matcherReplies kb (normalizeMsg t))

/-- The help listing order: `Object.keys(KNOWLEDGE_BASE).sort()`, the JS default
sort, which compares strings by code units (case-sensitive). -/
def listTerms (kb : KB) : List Str :=
  List.insertionSort (· ≤ ·) (kb.map Prod.fst)

/-! ### The reply dispatcher (sendTelegramMessageSafely) -/

/-- Telegram text message size limit used by the dispatcher. -/
def MAX_MESSAGE_LENGTH : Nat := 4096

/-- The chunking while-loop of `sendTelegramMessageSafely`: repeatedly slice off
the first `MAX_MESSAGE_LENGTH` characters until the text is exhausted. -/
def chunkLoop (s : Str) : List Str :=
  match s with
  | [] => []
  | c :: cs => (c :: cs).take MAX_MESSAGE_LENGTH :: chunkLoop ((c :: cs).drop MAX_MESSAGE_LENGTH)
termination_by s.length
decreasing_by
  simp [MAX_MESSAGE_LENGTH]
  omega

/-- The texts sent by `sendTelegramMessageSafely` for one payload, in order:
the payload itself when it fits, otherwise the chunks of the while-loop. -/
def sendSafely (s : Str) : List Str :=
  if s.length ≤ MAX_MESSAGE_LENGTH then [s] else chunkLoop s

/-- All outbound send texts of one reply batch, in issue order: the handler
loops over the payloads and awaits `sendTelegramMessageSafely` for each. -/
def batchSends (ps : List Str) : List Str := (ps.map sendSafely).flatten

/-- Sequential awaited sends with failure: the `i`-th send is attempted, and if
the oracle says it fails, the rejected promise aborts the handler, so nothing
after it is attempted (there is no try/catch anywhere on the send path). -/
def attemptRun (fail : Nat → Bool) : Nat → List Str → List Str
  | _, [] => []
  | i, s :: rest => s :: (if fail i then [] else attemptRun fail (i + 1) rest)

/-- The sends actually issued for a reply batch under the failure oracle. -/
def deliverBatch (fail : Nat → Bool) (ps : List Str) : List Str :=
  attemptRun fail 0 (batchSends ps)

/-! ### Definitions modelled from the wording of the specification, used to
compare the specified behavior with the implemented one. -/

/-- Modelled from the spec: Score as the count of distinct query words occurring
in the case-folded definition (the implementation does not deduplicate). -/
def specDistinctScore (ws : List Str) (d : Str) : Nat :=
  (ws.dedup.filter (fun w => jsIncludes (jsToLower d) w)).length

/-- Modelled from the spec: case-insensitive lexicographic order on terms, the
order in which the spec says `listTerms` sorts. -/
def ciLe (a b : Str) : Prop := jsToLower a ≤ jsToLower b

instance : DecidableRel ciLe := fun a b => inferInstanceAs (Decidable (jsToLower a ≤ jsToLower b))

/-! ### Helper lemmas -/

theorem toNat_ofNat_of_valid {m : Nat} (h : m.isValidChar) : (Char.ofNat m).toNat = m := by
  unfold Char.ofNat
  rw [dif_pos h]
  rfl

theorem char_eq_of_toNat_eq {a b : Char} (h : a.toNat = b.toNat) : a = b := by
  apply Char.ext
  exact UInt32.toNat.inj h

theorem toNat_toLower (c : Char) :
    (Char.toLower c).toNat = if 65 ≤ c.toNat ∧ c.toNat ≤ 90 then c.toNat + 32 else c.toNat := by
  show (if c.toNat ≥ 65 ∧ c.toNat ≤ 90 then Char.ofNat (c.toNat + 32) else c).toNat = _
  by_cases h : 65 ≤ c.toNat ∧ c.toNat ≤ 90
  · rw [if_pos h, if_pos h]
    exact toNat_ofNat_of_valid (Or.inl (by omega))
  · rw [if_neg h, if_neg h]

theorem toLower_toLower (c : Char) : c.toLower.toLower = c.toLower := by
  apply char_eq_of_toNat_eq
  have h1 := toNat_toLower c
  have h2 := toNat_toLower c.toLower
  rw [h1] at h2
  rw [h2, h1]
  split_ifs <;> omega

theorem jsToLower_idem (s : Str) : jsToLower (jsToLower s) = jsToLower s := by
  rw [jsToLower, jsToLower, List.map_map]
  apply List.map_congr_left
  intro c _
  exact toLower_toLower c

theorem jsTrim_sub (s : Str) : jsTrim s <:+: s := by
  rw [jsTrim]
  have h1 : List.dropWhile isJsSpace s <:+ s := List.dropWhile_suffix isJsSpace
  have h2 : List.dropWhile isJsSpace (List.dropWhile isJsSpace s).reverse <:+
      (List.dropWhile isJsSpace s).reverse := List.dropWhile_suffix isJsSpace
  have h3 : ((List.dropWhile isJsSpace s).reverse.dropWhile isJsSpace).reverse <+:
      List.dropWhile isJsSpace s := by
    apply List.reverse_suffix.mp
    simpa using h2
  have h4 := List.IsPrefix.isInfix h3
  have h5 := List.IsSuffix.isInfix h1
  exact List.IsInfix.trans h4 h5

theorem jsTrim_eq_nil {t : Str} (h : jsTrim t = []) : ∀ c ∈ t, isJsSpace c = true := by
  rw [jsTrim, List.reverse_eq_nil_iff, List.dropWhile_eq_nil_iff] at h
  intro c hc
  rcases List.mem_append.mp ((List.takeWhile_append_dropWhile (p := isJsSpace) (l := t)) ▸ hc) with
      h1 | h2
  · exact List.mem_takeWhile_imp h1
  · exact h c (List.mem_reverse.mpr h2)

theorem kbGet_eq {kb : KB} (hnd : (kb.map Prod.fst).Nodup) {k d : Str}
    (hmem : (k, d) ∈ kb) : kbGet kb k = d := by
  induction kb with
  | nil => cases hmem
  | cons e rest ih =>
    rw [List.map_cons, List.nodup_cons] at hnd
    rcases List.mem_cons.mp hmem with he | hrest
    · subst he
      simp [kbGet, List.find?_cons]
    · have hk : k ∈ rest.map Prod.fst := List.mem_map_of_mem Prod.fst hrest
      have hne : (e.1 == k) = false := by
        apply beq_eq_false_iff_ne.mpr
        intro hek
        exact hnd.1 (hek ▸ hk)
      have : kbGet (e :: rest) k = kbGet rest k := by
        simp [kbGet, List.find?_cons, hne]
      rw [this]
      exact ih hnd.2 hrest

theorem nonempty_not_isEmpty {α : Type} {l : List α} (h : l ≠ []) : l.isEmpty = false := by
  cases l with
  | nil => exact absurd rfl h
  | cons a as => rfl

/-! ### Claims -/

/-- C9: the message handler is not total on events without a text field: the
command guard is falsy for an absent text, after which the unguarded
`msg.text.trim()` call throws (modelled as `Except.error ()`); on any string
text the handler is well defined and produces the reply list of
`handleMessage`. -/
theorem c9_missing_text_throws (kb : KB) :
    handleEvent kb none = Except.error () ∧
    ∀ t : Str, handleEvent kb (some t) = Except.ok (handleMessage kb t) := by
  constructor
  · rfl
  · intro t
    rw [handleEvent, handleMessage]
    by_cases h : isCmd t = true
    · simp [h]
    · simp [eq_false_of_ne_true h]

/-- C6 counterexample: a whitespace-only message (empty after trim) does not
lead to silence; with a one-entry knowledge base the bot replies with that
definition, because the empty normalized query is a substring of every term. -/
theorem c6_counterexample :
    handleMessage [("Incidence".data, "D".data)] "   ".data = ["D".data] ∧
    handleMessage [("Incidence".data, "D".data)] "   ".data ≠ [] := by decide

/-- C6 (amended): a message whose text is empty after trimming is not ignored:
the empty normalized query matches every term in Phase 1, so the handler
replies with the definitions of the first up-to-5 knowledge-base entries in
store order; when the knowledge base is empty it replies with the
provide-keywords sentinel.  In neither case is the event silently dropped. -/
theorem c6_empty_message_replies (kb : KB) (t : Str) (h : jsTrim t = []) :
    handleMessage kb t =
      (if kb.isEmpty then [provideKeywordsMsg]
       else ((kb.map Prod.fst).take 5).map (kbGet kb)) ∧
    handleMessage kb t ≠ [] := by
  have hsp := jsTrim_eq_nil h
  have hcmd : isCmd t = false := by
    cases t with
    | nil => rfl
    | cons c cs =>
      have hc : isJsSpace c = true := hsp c (List.mem_cons_self c cs)
      have : (c == '/') = false := by
        apply beq_eq_false_iff_ne.mpr
        intro hc'
        rw [hc'] at hc
        exact absurd hc (by decide)
      simp [isCmd, List.take, this]
  have hum : normalizeMsg t = [] := by rw [normalizeMsg, h]; rfl
  have htm : termMatchesOf kb [] = kb.map Prod.fst := by
    rw [termMatchesOf]
    apply List.filter_eq_self.mpr
    intro a _
    rw [jsIncludes, decide_eq_true_eq]
    exact List.nil_infix
  have hbody : handleMessage kb t = matcherReplies kb [] := by
    rw [handleMessage, hcmd, hum]
    simp
  rw [hbody, matcherReplies, htm]
  cases kb with
  | nil =>
    constructor
    · rfl
    · decide
  | cons e rest =>
    constructor
    · rfl
    · simp

/-- C1: for a non-command message whose normalized text yields a non-empty
Phase 1 term-substring match set, the reply batch is exactly the definitions
of the first up-to-5 matching entries in store (iteration) order, so Phase 2
scoring never contributes; under the knowledge-base invariant of unique keys
this is literally the definitions of the first up-to-5 matching entries. -/
theorem c1_phase1_priority (kb : KB) (t : Str) (hcmd : isCmd t = false)
    (hne : termMatchesOf kb (normalizeMsg t) ≠ []) :
    handleMessage kb t = ((termMatchesOf kb (normalizeMsg t)).take 5).map (kbGet kb) ∧
    ((kb.map Prod.fst).Nodup →
      handleMessage kb t =
        ((kb.filter (fun e => jsIncludes (jsToLower e.1) (normalizeMsg t))).take 5).map
          Prod.snd) := by
  have h1 : handleMessage kb t = ((termMatchesOf kb (normalizeMsg t)).take 5).map (kbGet kb) := by
    rw [handleMessage, hcmd]
    simp only [Bool.false_eq_true, if_false]
    rw [matcherReplies, nonempty_not_isEmpty hne]
    rfl
  refine ⟨h1, fun hnd => ?_⟩
  rw [h1]
  have hsplit : termMatchesOf kb (normalizeMsg t) =
      (kb.filter (fun e => jsIncludes (jsToLower e.1) (normalizeMsg t))).map Prod.fst := by
    rw [termMatchesOf, List.filter_map]
    rfl
  rw [hsplit, ← List.map_take, List.map_map]
  apply List.map_congr_left
  intro e he
  have hekb : e ∈ kb :=
    List.mem_of_mem_filter (List.mem_of_mem_take he)
  show kbGet kb e.1 = e.2
  exact kbGet_eq hnd hekb

/-- C1 witness: a concrete non-command message with a non-empty Phase 1 match
set resolves to the matched definitions. -/
theorem c1_witness :
    handleMessage [("incidence".data, "rate".data)] "Incidence".data =
      ((termMatchesOf [("incidence".data, "rate".data)]
          (normalizeMsg "Incidence".data)).take 5).map
        (kbGet [("incidence".data, "rate".data)]) :=
  (c1_phase1_priority [("incidence".data, "rate".data)] "Incidence".data (by decide)
    (by decide)).1

/-- C5: with zero Phase 1 matches, an empty token list yields exactly the
provide-keywords sentinel, while a non-empty token list on which every entry
scores zero yields exactly the no-information sentinel; the two sentinel texts
are distinct. -/
theorem c5_sentinel_replies (kb : KB) (t : Str) (hcmd : isCmd t = false)
    (htm : termMatchesOf kb (normalizeMsg t) = []) :
    (splitWords ((normalizeMsg t).filter (fun c => isWordChar c || isJsSpace c)) = [] →
      handleMessage kb t = [provideKeywordsMsg]) ∧
    (splitWords ((normalizeMsg t).filter (fun c => isWordChar c || isJsSpace c)) ≠ [] →
      (∀ e ∈ kb,
        defScore (splitWords ((normalizeMsg t).filter (fun c => isWordChar c || isJsSpace c)))
          e.2 = 0) →
      handleMessage kb t = [noInfoMsg]) ∧
    provideKeywordsMsg ≠ noInfoMsg := by
  have hbody : handleMessage kb t = matcherReplies kb (normalizeMsg t) := by
    rw [handleMessage, hcmd]
    simp only [Bool.false_eq_true, if_false]
  have hfall : matcherReplies kb (normalizeMsg t) =
      (let searchWords :=
        splitWords ((normalizeMsg t).filter (fun c => isWordChar c || isJsSpace c))
      if searchWords.isEmpty then [provideKeywordsMsg]
      else phase2Replies kb searchWords) := by
    rw [matcherReplies, htm]
    rfl
  refine ⟨fun hws => ?_, fun hws hsc => ?_, by decide⟩
  · rw [hbody, hfall]
    simp only [hws]
    rfl
  · rw [hbody, hfall]
    simp only [nonempty_not_isEmpty hws, Bool.false_eq_true, if_false]
    have hdm : definitionMatches kb
        (splitWords ((normalizeMsg t).filter (fun c => isWordChar c || isJsSpace c))) = [] := by
      rw [definitionMatches, List.filterMap_eq_nil_iff]
      intro e he
      rw [hsc e he]
      rfl
    rw [phase2Replies, hdm]
    rfl

/-- C5 witness: the pure-punctuation message gives the provide-keywords
sentinel; a token that occurs in no definition gives the no-information
sentinel, and the two sentinels differ. -/
theorem c5_witness :
    handleMessage [("incidence".data, "rate".data)] "???".data = [provideKeywordsMsg] ∧
    handleMessage [("incidence".data, "rate".data)] "xyz123".data = [noInfoMsg] ∧
    provideKeywordsMsg ≠ noInfoMsg :=
  ⟨(c5_sentinel_replies [("incidence".data, "rate".data)] "???".data (by decide)
      (by decide)).1 (by decide),
   (c5_sentinel_replies [("incidence".data, "rate".data)] "xyz123".data (by decide)
      (by decide)).2.1 (by decide) (by decide),
   (c5_sentinel_replies [("incidence".data, "rate".data)] "???".data (by decide)
      (by decide)).2.2⟩

/-- C6 witness: the amended statement at a concrete whitespace-only message
over a concrete one-entry knowledge base. -/
theorem c6_witness :
    handleMessage [("Prevalence".data, "measures".data)] "  ".data =
      (if ([(( "Prevalence".data : Str), "measures".data)] : KB).isEmpty
       then [provideKeywordsMsg]
       else ((([(( "Prevalence".data : Str), "measures".data)] : KB).map Prod.fst).take 5).map
         (kbGet [("Prevalence".data, "measures".data)])) ∧
    handleMessage [("Prevalence".data, "measures".data)] "  ".data ≠ [] :=
  c6_empty_message_replies [("Prevalence".data, "measures".data)] "  ".data (by decide)

/-- C3 counterexample: the term "a" is in the knowledge base, yet sending its
case-folded form does not return its definition among the first 5 replies:
five earlier (longer) terms also contain the query as a substring and fill the
5-entry Phase 1 budget in store order. -/
theorem c3_counterexample :
    ("a".data, "da".data) ∈
      ([("ba1".data, "d1".data), ("ba2".data, "d2".data), ("ba3".data, "d3".data),
        ("ba4".data, "d4".data), ("ba5".data, "d5".data), ("a".data, "da".data)] : KB) ∧
    "da".data ∉
      handleMessage
        [("ba1".data, "d1".data), ("ba2".data, "d2".data), ("ba3".data, "d3".data),
         ("ba4".data, "d4".data), ("ba5".data, "d5".data), ("a".data, "da".data)]
        (jsToLower "a".data) := by decide

/-- C3 (amended): sending the case-folded form of a knowledge-base term T (as
a non-command message) always makes T itself a Phase 1 match, and whenever at
most 5 terms match the query, the definition stored under T is among the
replies.  In general T is only guaranteed a reply slot when fewer than 5
matches precede it in store order. -/
theorem c3_term_self_match (kb : KB) (T D : Str) (hmem : (T, D) ∈ kb)
    (hcmd : isCmd (jsToLower T) = false) :
    T ∈ termMatchesOf kb (normalizeMsg (jsToLower T)) ∧
    ((termMatchesOf kb (normalizeMsg (jsToLower T))).length ≤ 5 →
      kbGet kb T ∈ handleMessage kb (jsToLower T)) := by
  have hinc : jsIncludes (jsToLower T) (normalizeMsg (jsToLower T)) = true := by
    rw [jsIncludes, decide_eq_true_eq, normalizeMsg]
    have h1 : jsTrim (jsToLower T) <:+: jsToLower T := jsTrim_sub _
    have h2 : jsToLower (jsTrim (jsToLower T)) <:+: jsToLower (jsToLower T) :=
      List.IsInfix.map _ h1
    rwa [jsToLower_idem] at h2
  have hT : T ∈ termMatchesOf kb (normalizeMsg (jsToLower T)) := by
    rw [termMatchesOf, List.mem_filter]
    exact ⟨List.mem_map_of_mem Prod.fst hmem, hinc⟩
  refine ⟨hT, fun hlen => ?_⟩
  have hne : termMatchesOf kb (normalizeMsg (jsToLower T)) ≠ [] := by
    intro hnil
    rw [hnil] at hT
    cases hT
  rw [handleMessage, hcmd]
  simp only [Bool.false_eq_true, if_false]
  rw [matcherReplies, nonempty_not_isEmpty hne]
  show kbGet kb T ∈
    ((termMatchesOf kb (normalizeMsg (jsToLower T))).take 5).map (kbGet kb)
  rw [List.take_of_length_le hlen]
  exact List.mem_map_of_mem (kbGet kb) hT

/-- C3 witness: the amended statement on a concrete two-entry knowledge base
whose term matches only itself. -/
theorem c3_witness :
    "incidence".data ∈
      termMatchesOf [("incidence".data, "rate".data)]
        (normalizeMsg (jsToLower "incidence".data)) ∧
    kbGet [("incidence".data, "rate".data)] "incidence".data ∈
      handleMessage [("incidence".data, "rate".data)] (jsToLower "incidence".data) := by
  have h := c3_term_self_match [("incidence".data, "rate".data)] "incidence".data "rate".data
    (by decide) (by decide)
  exact ⟨h.1, h.2 (by decide)⟩

theorem filter_score_orderedInsert (x : Str × Nat) (l : List (Str × Nat)) (n : Nat) :
    (List.orderedInsert scoreGe x l).filter (fun p => p.2 == n) =
      if x.2 == n then x :: l.filter (fun p => p.2 == n)
      else l.filter (fun p => p.2 == n) := by
  induction l with
  | nil =>
    by_cases hx : (x.2 == n) = true
    · simp [List.orderedInsert, List.filter_cons, hx]
    · simp [List.orderedInsert, List.filter_cons, eq_false_of_ne_true hx]
  | cons y ys ih =>
    by_cases hr : scoreGe x y
    · by_cases hx : (x.2 == n) = true
      · simp [List.orderedInsert, hr, List.filter_cons, hx]
      · simp [List.orderedInsert, hr, List.filter_cons, eq_false_of_ne_true hx]
    · have hgt : x.2 < y.2 := Nat.lt_of_not_le hr
      by_cases hy : (y.2 == n) = true
      · have hxn : (x.2 == n) = false := by
          apply beq_eq_false_iff_ne.mpr
          intro hxe
          have hyn : y.2 = n := beq_iff_eq.mp hy
          omega
        simp [List.orderedInsert, hr, List.filter_cons, ih, hy, hxn]
      · simp [List.orderedInsert, hr, List.filter_cons, ih, eq_false_of_ne_true hy]

theorem insertionSort_score_stable (l : List (Str × Nat)) (n : Nat) :
    (List.insertionSort scoreGe l).filter (fun p => p.2 == n) =
      l.filter (fun p => p.2 == n) := by
  induction l with
  | nil => rfl
  | cons x xs ih =>
    rw [List.insertionSort, filter_score_orderedInsert, List.filter_cons]
    by_cases hx : (x.2 == n) = true
    · simp [hx, ih]
    · simp [eq_false_of_ne_true hx, ih]

/-- C2 counterexample: the message "abc abc" reaches Phase 2 with the token
list [abc, abc]; the only entry is returned with Score 2 (each duplicated
token counted), while the count of distinct matching words is 1.  The claimed
Score law (distinct words) fails on the implementation. -/
theorem c2_counterexample :
    termMatchesOf [("t".data, "abc".data)] (normalizeMsg "abc abc".data) = [] ∧
    splitWords ((normalizeMsg "abc abc".data).filter (fun c => isWordChar c || isJsSpace c)) =
      ["abc".data, "abc".data] ∧
    definitionMatches [("t".data, "abc".data)] ["abc".data, "abc".data] =
      [("t".data, 2)] ∧
    specDistinctScore ["abc".data, "abc".data] "abc".data = 1 := by decide

/-- C2 (amended): every Phase 2 candidate carries Score equal to the number of
query tokens, counted with multiplicity rather than deduplicated, that occur
as substrings of the case-folded definition of some knowledge-base entry with
the candidate key, and only Scores of at least 1 are kept; the sort is a
permutation of the candidates ordered by Score descending, ties keeping
production order (stability expressed by per-score filters being unchanged);
the replies are the definitions of the first 5 sorted candidates. -/
theorem c2_phase2_scoring (kb : KB) (ws : List Str) :
    (∀ p ∈ definitionMatches kb ws,
      1 ≤ p.2 ∧ ∃ d, (p.1, d) ∈ kb ∧ p.2 = defScore ws d) ∧
    (List.insertionSort scoreGe (definitionMatches kb ws)).Perm (definitionMatches kb ws) ∧
    List.Sorted scoreGe (List.insertionSort scoreGe (definitionMatches kb ws)) ∧
    (∀ n, (List.insertionSort scoreGe (definitionMatches kb ws)).filter (fun p => p.2 == n) =
      (definitionMatches kb ws).filter (fun p => p.2 == n)) ∧
    (definitionMatches kb ws ≠ [] →
      phase2Replies kb ws =
        ((List.insertionSort scoreGe (definitionMatches kb ws)).take 5).map
          (fun m => kbGet kb m.1)) := by
  refine ⟨?_, List.perm_insertionSort scoreGe _, List.sorted_insertionSort scoreGe _,
    fun n => insertionSort_score_stable _ n, fun hne => ?_⟩
  · intro p hp
    rw [definitionMatches, List.mem_filterMap] at hp
    obtain ⟨e, hekb, hfe⟩ := hp
    by_cases hs : 0 < defScore ws e.2
    · rw [if_pos hs] at hfe
      cases hfe
      exact ⟨hs, e.2, by rw [← Prod.mk.eta (p := e)] at hekb; exact hekb, rfl⟩
    · rw [if_neg hs] at hfe
      cases hfe
  · rw [phase2Replies, nonempty_not_isEmpty hne]
    rfl

/-- C2 witness: the amended statement instantiated on a concrete Phase 2 query
with a duplicated token and two entries of different scores. -/
theorem c2_witness :
    (1 ≤ 2 ∧ ∃ d, (("t".data : Str), d) ∈ ([("t".data, "abc".data)] : KB) ∧
      2 = defScore ["abc".data, "abc".data] d) ∧
    phase2Replies [("t".data, "abc".data)] ["abc".data, "abc".data] =
      ((List.insertionSort scoreGe
          (definitionMatches [("t".data, "abc".data)] ["abc".data, "abc".data])).take 5).map
        (fun m => kbGet [("t".data, "abc".data)] m.1) :=
  ⟨(c2_phase2_scoring [("t".data, "abc".data)] ["abc".data, "abc".data]).1
      ("t".data, 2) (by decide),
   (c2_phase2_scoring [("t".data, "abc".data)] ["abc".data, "abc".data]).2.2.2.2
      (by decide)⟩

/-- C10: every Phase 2 match candidate has a score between 1 and the number of
search tokens, and no zero-score candidate survives into the sorted list the
replies are drawn from.  The candidate list is a pure function of the single
message's token list and the knowledge base, so no cross-message state
exists. -/
theorem c10_candidate_invariant (kb : KB) (ws : List Str) :
    (∀ p ∈ definitionMatches kb ws, 1 ≤ p.2 ∧ p.2 ≤ ws.length) ∧
    (∀ p ∈ List.insertionSort scoreGe (definitionMatches kb ws), 1 ≤ p.2) := by
  have hbound : ∀ p ∈ definitionMatches kb ws, 1 ≤ p.2 ∧ p.2 ≤ ws.length := by
    intro p hp
    rw [definitionMatches, List.mem_filterMap] at hp
    obtain ⟨e, _, hfe⟩ := hp
    by_cases hs : 0 < defScore ws e.2
    · rw [if_pos hs] at hfe
      cases hfe
      exact ⟨hs, List.length_filter_le _ ws⟩
    · rw [if_neg hs] at hfe
      cases hfe
  refine ⟨hbound, fun p hp => ?_⟩
  have : p ∈ definitionMatches kb ws :=
    (List.perm_insertionSort scoreGe (definitionMatches kb ws)).mem_iff.mp hp
  exact (hbound p this).1

/-- C10 witness: the invariant instantiated on a concrete candidate of a
concrete two-token query. -/
theorem c10_witness :
    (1 ≤ 2 ∧ 2 ≤ (["abc".data, "abc".data] : List Str).length) ∧ 1 ≤ 2 :=
  ⟨(c10_candidate_invariant [("t".data, "abc".data)] ["abc".data, "abc".data]).1
      ("t".data, 2) (by decide),
   (c10_candidate_invariant [("t".data, "abc".data)] ["abc".data, "abc".data]).2
      ("t".data, 2) (by decide)⟩

theorem chunkLoop_nil : chunkLoop [] = [] := by
  rw [chunkLoop]

theorem chunkLoop_cons (c : Char) (cs : Str) :
    chunkLoop (c :: cs) =
      (c :: cs).take MAX_MESSAGE_LENGTH :: chunkLoop ((c :: cs).drop MAX_MESSAGE_LENGTH) := by
  rw [chunkLoop]

theorem chunkLoop_flatten (s : Str) : (chunkLoop s).flatten = s := by
  induction s using chunkLoop.induct with
  | case1 => rw [chunkLoop_nil]; rfl
  | case2 c cs ih =>
    rw [chunkLoop_cons, List.flatten_cons, ih, List.take_append_drop]

theorem chunkLoop_length (s : Str) :
    (chunkLoop s).length = (s.length + (MAX_MESSAGE_LENGTH - 1)) / MAX_MESSAGE_LENGTH := by
  induction s using chunkLoop.induct with
  | case1 => rw [chunkLoop_nil]; rfl
  | case2 c cs ih =>
    rw [chunkLoop_cons, List.length_cons, ih, List.length_drop]
    simp only [MAX_MESSAGE_LENGTH, List.length_cons]
    omega

theorem chunkLoop_chunk_le (s : Str) : ∀ c ∈ chunkLoop s, c.length ≤ MAX_MESSAGE_LENGTH := by
  induction s using chunkLoop.induct with
  | case1 =>
    intro c hc
    rw [chunkLoop_nil] at hc
    cases hc
  | case2 c cs ih =>
    intro x hx
    rw [chunkLoop_cons] at hx
    rcases List.mem_cons.mp hx with hx | hx
    · rw [hx]
      exact List.length_take_le _ _
    · exact ih x hx

theorem chunkLoop_get (s : Str) :
    ∀ i, i < (chunkLoop s).length →
      (chunkLoop s).get? i = some ((s.drop (MAX_MESSAGE_LENGTH * i)).take MAX_MESSAGE_LENGTH) := by
  induction s using chunkLoop.induct with
  | case1 =>
    intro i hi
    rw [chunkLoop_nil] at hi
    cases hi
  | case2 c cs ih =>
    intro i hi
    cases i with
    | zero =>
      rw [chunkLoop_cons]
      show some _ = _
      rw [Nat.mul_zero, List.drop_zero]
    | succ j =>
      rw [chunkLoop_cons] at hi ⊢
      rw [List.length_cons] at hi
      have hj : j < (chunkLoop ((c :: cs).drop MAX_MESSAGE_LENGTH)).length := by omega
      show (chunkLoop ((c :: cs).drop MAX_MESSAGE_LENGTH)).get? j = _
      rw [ih j hj, List.drop_drop]
      have harith : MAX_MESSAGE_LENGTH + MAX_MESSAGE_LENGTH * j =
          MAX_MESSAGE_LENGTH * (j + 1) := by
        simp only [MAX_MESSAGE_LENGTH]
        omega
      rw [harith]

/-- C4: the reply dispatcher sends a payload within the size limit as a single
unchanged message; an oversized payload is sent as consecutive fixed-width
slices whose concatenation is exactly the payload, with chunk count
ceil(length / limit), every chunk at most the limit long, and the i-th send
being the slice starting at offset limit * i (so the chunks cover the payload
in order with no overlap and no gap). -/
theorem c4_chunking_round_trip (s : Str) :
    (sendSafely s).flatten = s ∧
    (sendSafely s).length = max 1 ((s.length + (MAX_MESSAGE_LENGTH - 1)) / MAX_MESSAGE_LENGTH) ∧
    (∀ c ∈ sendSafely s, c.length ≤ MAX_MESSAGE_LENGTH) ∧
    (∀ i, i < (sendSafely s).length →
      (sendSafely s).get? i =
        some ((s.drop (MAX_MESSAGE_LENGTH * i)).take MAX_MESSAGE_LENGTH)) ∧
    (s.length ≤ MAX_MESSAGE_LENGTH → sendSafely s = [s]) := by
  by_cases hle : s.length ≤ MAX_MESSAGE_LENGTH
  · have hss : sendSafely s = [s] := by rw [sendSafely, if_pos hle]
    refine ⟨?_, ?_, ?_, ?_, fun _ => hss⟩
    · rw [hss]
      exact List.flatten_singleton s
    · rw [hss, List.length_singleton]
      simp only [MAX_MESSAGE_LENGTH] at hle ⊢
      omega
    · intro c hc
      rw [hss] at hc
      rcases List.mem_cons.mp hc with hc | hc
      · rw [hc]; exact hle
      · cases hc
    · intro i hi
      rw [hss] at hi ⊢
      rw [List.length_cons, List.length_nil] at hi
      have : i = 0 := by omega
      subst this
      rw [Nat.mul_zero, List.drop_zero, List.take_of_length_le hle]
      rfl
  · have hss : sendSafely s = chunkLoop s := by rw [sendSafely, if_neg hle]
    have hgt : MAX_MESSAGE_LENGTH < s.length := Nat.lt_of_not_le hle
    refine ⟨?_, ?_, ?_, ?_, fun h => absurd h hle⟩
    · rw [hss]; exact chunkLoop_flatten s
    · rw [hss, chunkLoop_length]
      simp only [MAX_MESSAGE_LENGTH] at hgt ⊢
      omega
    · rw [hss]; exact chunkLoop_chunk_le s
    · rw [hss]; exact chunkLoop_get s

/-- C4 witness: a short payload is sent unchanged, and the amended count
formula evaluates correctly on a 5000-character payload (two chunks). -/
theorem c4_witness :
    (sendSafely "hi".data).flatten = "hi".data ∧
    sendSafely "hi".data = ["hi".data] ∧
    (sendSafely (List.replicate 5000 'x')).length = 2 := by
  refine ⟨(c4_chunking_round_trip "hi".data).1,
    (c4_chunking_round_trip "hi".data).2.2.2.2 (by decide), ?_⟩
  rw [(c4_chunking_round_trip (List.replicate 5000 'x')).2.1]
  rw [List.length_replicate]
  rfl

/-! ### C7: send-failure behavior -/

theorem attemptRun_all_ok (fail : Nat → Bool) :
    ∀ (s : List Str) (i : Nat), (∀ j, j < s.length → fail (i + j) = false) →
      attemptRun fail i s = s := by
  intro s
  induction s with
  | nil => intro i _; rfl
  | cons x rest ih =>
    intro i hok
    have h0 : fail i = false := by
      have := hok 0 (Nat.succ_pos rest.length)
      simpa using this
    rw [attemptRun, h0]
    simp only [Bool.false_eq_true, if_false]
    congr 1
    apply ih
    intro j hj
    have := hok (j + 1) (by rw [List.length_cons]; omega)
    rw [show i + 1 + j = i + (j + 1) by omega]
    exact this

theorem attemptRun_stops_at_fail (fail : Nat → Bool) :
    ∀ (s : List Str) (i k : Nat), k < s.length → fail (i + k) = true →
      (∀ j, j < k → fail (i + j) = false) →
      attemptRun fail i s = s.take (k + 1) := by
  intro s
  induction s with
  | nil => intro i k hk; cases hk
  | cons x rest ih =>
    intro i k hk hfk hprev
    cases k with
    | zero =>
      have h0 : fail i = true := by simpa using hfk
      rw [attemptRun, h0]
      rfl
    | succ k' =>
      have h0 : fail i = false := by
        have := hprev 0 (Nat.succ_pos k')
        simpa using this
      rw [attemptRun, h0]
      simp only [Bool.false_eq_true, if_false]
      rw [List.take_succ_cons]
      congr 1
      apply ih (i + 1) k'
      · rw [List.length_cons] at hk
        omega
      · rw [show i + 1 + k' = i + (k' + 1) by omega]
        exact hfk
      · intro j hj
        rw [show i + 1 + j = i + (j + 1) by omega]
        exact hprev (j + 1) (by omega)

/-- C7 counterexample: with two one-chunk payloads and a failure on the very
first send, the second payload is never issued — an erroring send does abort
delivery of the subsequent payloads of the batch (and nothing is logged, as
there is no catch handler on the send path). -/
theorem c7_counterexample :
    deliverBatch (fun n => n == 0) [['a'], ['b']] = [['a']] ∧
    ['b'] ∉ deliverBatch (fun n => n == 0) [['a'], ['b']] := by decide

/-- C7 (amended): delivery of a reply batch is all-or-prefix: when no send
fails the whole chunk sequence of the batch is issued in order, and when the
k-th send is the first to fail, exactly the first k+1 sends are attempted and
everything after the failing send — including all subsequent payloads — is
abandoned, because the rejected awaited promise propagates out of the handler
(no logging, no continuation). -/
theorem c7_failure_aborts_batch (fail : Nat → Bool) (ps : List Str) :
    ((∀ j, j < (batchSends ps).length → fail j = false) →
      deliverBatch fail ps = batchSends ps) ∧
    (∀ k, k < (batchSends ps).length → fail k = true → (∀ j, j < k → fail j = false) →
      deliverBatch fail ps = (batchSends ps).take (k + 1)) := by
  constructor
  · intro hok
    apply attemptRun_all_ok
    intro j hj
    rw [Nat.zero_add]
    exact hok j hj
  · intro k hk hfk hprev
    apply attemptRun_stops_at_fail fail (batchSends ps) 0 k hk
    · rw [Nat.zero_add]
      exact hfk
    · intro j hj
      rw [Nat.zero_add]
      exact hprev j hj

/-- C7 witness: with three one-chunk payloads and the first failure at index 1,
exactly the first two sends are attempted. -/
theorem c7_witness :
    deliverBatch (fun n => n == 1) [['a'], ['b'], ['c']] =
      (batchSends [['a'], ['b'], ['c']]).take 2 :=
  (c7_failure_aborts_batch (fun n => n == 1) [['a'], ['b'], ['c']]).2 1
    (by decide) (by decide) (by decide)

/-- C8 counterexample: with the terms "apple" and "Banana", the help listing
is ["Banana", "apple"] (code-unit order puts every uppercase letter before
every lowercase one), which is not sorted under case-insensitive comparison
("apple" precedes "Banana" case-insensitively). -/
theorem c8_counterexample :
    listTerms [("apple".data, "a".data), ("Banana".data, "b".data)] =
      ["Banana".data, "apple".data] ∧
    ¬ List.Sorted ciLe (listTerms [("apple".data, "a".data), ("Banana".data, "b".data)]) := by
  constructor
  · decide
  · intro hs
    have : ciLe "Banana".data "apple".data := by
      have heq : listTerms [("apple".data, "a".data), ("Banana".data, "b".data)] =
          ["Banana".data, "apple".data] := by decide
      rw [heq] at hs
      exact List.rel_of_sorted_cons hs "apple".data (List.mem_singleton.mpr rfl)
    exact absurd this (by decide)

/-- C8 (amended): `listTerms` returns all knowledge-base terms sorted
lexicographically ascending under case-sensitive code-unit comparison (the JS
default sort), not case-insensitively: the result is a permutation of the key
list and is sorted under the code-unit order. -/
theorem c8_listTerms_sorted (kb : KB) :
    (listTerms kb).Perm (kb.map Prod.fst) ∧
    List.Sorted (fun a b : Str => a ≤ b) (listTerms kb) :=
  ⟨List.perm_insertionSort _ _, List.sorted_insertionSort _ _⟩

/-! ### Smoke tests (spec section 8 scenario) -/

example : splitWords "abc  de f".data = ["abc".data, "de".data, "f".data] := by decide
example : splitWords (List.filter (fun c => isWordChar c || isJsSpace c) "???".data) = [] := by
  decide
example : jsTrim "  hi ".data = "hi".data := by decide
example : normalizeMsg "  AbC ".data = "abc".data := by decide
example : isCmd "/help".data = true := by decide
example : isCmd "hi".data = false := by decide
example :
    handleMessage [("incidence".data, "rate of new cases".data)] "Incidence".data =
      ["rate of new cases".data] := by decide
example :
    handleMessage [("incidence".data, "rate of new cases".data)] "cases".data =
      ["rate of new cases".data] := by decide
example :
    handleMessage [("incidence".data, "rate of new cases".data)] "???".data =
      [provideKeywordsMsg] := by decide
example :
    handleMessage [("incidence".data, "rate of new cases".data)] "xyz123".data =
      [noInfoMsg] := by decide
example : sendSafely "hi".data = ["hi".data] := by decide
example : deliverBatch (fun n => n == 0) [['a'], ['b']] = [['a']] := by decide

end EpiBot
